import Mathlib

/-!
# Todo list state management (src/src/App.js)

A shallow embedding of the `App` component of `src/src/App.js`: the list of
todo items held in React state, the id of the item being edited, the two
input elements reached through refs, and the `localStorage` slot `"todos"`.

JavaScript strings are sequences of UTF-16 code units; a string is modelled
as the list of its code units. The clock reading `Date.now()` is an argument
of `addTodo`. Each event handler is a function from the state of the render
in which it was created to the state after the handler has run. The add form
is rendered only while no edit is active and the edit form only while one is
(lines 114-137): `addTodo` is modelled in the renders that show its button,
where the add input is mounted; `updateTodo` is modelled on every state, and
throws where the edit input is not mounted. `JSON.stringify` is modelled on
lists of todo items, `JSON.parse` on every text, following ECMA-262.
-/

namespace TodoApp

/-- A JavaScript string, as the list of its UTF-16 code units. -/
abbrev JSString := List Nat

/-- One todo item, as built in `addTodo`: `{ id, complete, text }`. -/
structure Todo where
  id : Int
  complete : Bool
  text : JSString
  deriving DecidableEq, Repr

/-! ## `String.prototype.trim` -/

/-- The code units that `trim` strips: ECMAScript WhiteSpace (TAB, VT, FF,
ZWNBSP and the space separators) and LineTerminator (LF, CR, LS, PS). -/
def isWhiteSpace (c : Nat) : Bool :=
  c == 9 || c == 10 || c == 11 || c == 12 || c == 13 || c == 32 || c == 160 ||
  c == 5760 || (8192 ≤ c && c ≤ 8202) || c == 8232 || c == 8233 || c == 8239 ||
  c == 8287 || c == 12288 || c == 65279

/-- Strip leading white space. -/
def trimStart (s : JSString) : JSString := s.dropWhile isWhiteSpace

/-- Strip trailing white space. -/
def trimEnd (s : JSString) : JSString := (s.reverse.dropWhile isWhiteSpace).reverse

/-- The method `trim`: strip white space at both ends. -/
def trim (s : JSString) : JSString := trimEnd (trimStart s)

/-! ## `JSON.stringify` on a list of todo items -/

/-- One lower-case hexadecimal digit. -/
def hexDigit (d : Nat) : Nat := if d < 10 then 48 + d else 87 + d

/-- The escape `\uXXXX` of a code unit. -/
def unicodeEscape (c : Nat) : JSString :=
  [92, 117, hexDigit (c / 4096 % 16), hexDigit (c / 256 % 16), hexDigit (c / 16 % 16),
    hexDigit (c % 16)]

/-- A leading (high) surrogate. -/
def isLeadSurrogate (c : Nat) : Bool := 55296 ≤ c && c ≤ 56319

/-- A trailing (low) surrogate. -/
def isTrailSurrogate (c : Nat) : Bool := 56320 ≤ c && c ≤ 57343

/-- How QuoteJSONString writes a code unit that is not part of a surrogate pair. -/
def quoteUnit (c : Nat) : JSString :=
  if c = 8 then [92, 98]
  else if c = 9 then [92, 116]
  else if c = 10 then [92, 110]
  else if c = 12 then [92, 102]
  else if c = 13 then [92, 114]
  else if c = 34 then [92, 34]
  else if c = 92 then [92, 92]
  else if c < 32 || isLeadSurrogate c || isTrailSurrogate c then unicodeEscape c
  else [c]

/-- The characters of QuoteJSONString between the two quotes: a surrogate pair
is copied, any other code unit goes through `quoteUnit`. -/
def quoteBody : JSString → JSString
  | [] => []
  | [c] => quoteUnit c
  | c :: d :: rest =>
    if isLeadSurrogate c && isTrailSurrogate d then c :: d :: quoteBody rest
    else quoteUnit c ++ quoteBody (d :: rest)

/-- QuoteJSONString. -/
def quoteJSONString (s : JSString) : JSString := 34 :: (quoteBody s ++ [34])

/-- The decimal digits of a natural number, most significant first. -/
def decimalDigits : Nat → Nat → JSString
  | 0, _ => []
  | fuel + 1, n => if n < 10 then [48 + n] else decimalDigits fuel (n / 10) ++ [48 + n % 10]

/-- Number to string on a natural number. -/
def natToString (n : Nat) : JSString := decimalDigits (n + 1) n

/-- Number to string on an integer (ids are clock readings, far below 10^21, where
the result is the plain decimal numeral). -/
def intToString : Int → JSString
  | Int.ofNat n => natToString n
  | Int.negSucc n => 45 :: natToString (n + 1)

/-- The text of `true` and `false`. -/
def boolToString (b : Bool) : JSString :=
  if b then [116, 114, 117, 101] else [102, 97, 108, 115, 101]

/-- Serialisation of one item: `{"id":N,"complete":B,"text":"S"}`. -/
def stringifyTodo (t : Todo) : JSString :=
  [123, 34, 105, 100, 34, 58] ++ intToString t.id ++
  [44, 34, 99, 111, 109, 112, 108, 101, 116, 101, 34, 58] ++ boolToString t.complete ++
  [44, 34, 116, 101, 120, 116, 34, 58] ++ quoteJSONString t.text ++ [125]

/-- The items of an array separated by commas. -/
def stringifyItems : List Todo → JSString
  | [] => []
  | [t] => stringifyTodo t
  | t :: u :: rest => stringifyTodo t ++ 44 :: stringifyItems (u :: rest)

/-- The call `JSON.stringify(todos)`. -/
def stringify (todos : List Todo) : JSString := 91 :: (stringifyItems todos ++ [93])

/-! ## `JSON.parse` -/

/-- A parsed JSON text. A number is kept exact, as `mant * 10 ^ exp`; an object
is kept as the sequence of its members in source order. -/
inductive JSON where
  | null
  | bool (b : Bool)
  | num (mant : Int) (exp : Int)
  | str (s : JSString)
  | arr (elems : List JSON)
  | obj (members : List (JSString × JSON))

/-- JSON white space: TAB, LF, CR and SP. -/
def isJSONSpace (c : Nat) : Bool := c == 9 || c == 10 || c == 13 || c == 32

/-- Skip JSON white space. -/
def skipWs : JSString → JSString
  | [] => []
  | c :: rest => if isJSONSpace c then skipWs rest else c :: rest

/-- A decimal digit. -/
def isDigit (c : Nat) : Bool := 48 ≤ c && c ≤ 57

/-- The value of a hexadecimal digit, in either case. -/
def hexVal (c : Nat) : Option Nat :=
  if 48 ≤ c ∧ c ≤ 57 then some (c - 48)
  else if 97 ≤ c ∧ c ≤ 102 then some (c - 87)
  else if 65 ≤ c ∧ c ≤ 70 then some (c - 55)
  else none

/-- The code unit written by four hexadecimal digits. -/
def hex4 (a b c d : Nat) : Option Nat :=
  match hexVal a, hexVal b, hexVal c, hexVal d with
  | some x, some y, some z, some w => some (x * 4096 + y * 256 + z * 16 + w)
  | _, _, _, _ => none

/-- The code unit named by a one-character escape. -/
def unescape (e : Nat) : Option Nat :=
  if e = 34 then some 34
  else if e = 92 then some 92
  else if e = 47 then some 47
  else if e = 98 then some 8
  else if e = 102 then some 12
  else if e = 110 then some 10
  else if e = 114 then some 13
  else if e = 116 then some 9
  else none

/-- Put a code unit in front of a parsed string. -/
def consUnit (c : Nat) (r : Option (JSString × JSString)) : Option (JSString × JSString) :=
  r.map fun p => (c :: p.1, p.2)

/-- A JSON string after its opening quote: the value and what follows the closing
quote. Control characters below U+0020 must be escaped. -/
def parseStringBody : JSString → Option (JSString × JSString)
  | [] => none
  | c :: rest =>
    if c = 34 then some ([], rest)
    else if c = 92 then
      match rest with
      | [] => none
      | e :: rest1 =>
        if e = 117 then
          match rest1 with
          | a :: b :: c2 :: d :: rest2 =>
            match hex4 a b c2 d with
            | some u => consUnit u (parseStringBody rest2)
            | none => none
          | _ => none
        else
          match unescape e with
          | some u => consUnit u (parseStringBody rest1)
          | none => none
    else if c < 32 then none
    else consUnit c (parseStringBody rest)

/-- The longest run of decimal digits at the front: their values and the rest. -/
def takeDigits : JSString → List Nat × JSString
  | [] => ([], [])
  | c :: rest =>
    if isDigit c then ((c - 48) :: (takeDigits rest).1, (takeDigits rest).2)
    else ([], c :: rest)

/-- The number written by a list of digit values, most significant first. -/
def digitsValue (ds : List Nat) : Nat := ds.foldl (fun acc d => acc * 10 + d) 0

/-- The integer part of a JSON number: `0`, or a non-zero digit and more digits. -/
def parseIntPart : JSString → Option (List Nat × JSString)
  | [] => none
  | c :: rest =>
    if c = 48 then some ([0], rest)
    else if isDigit c then some (takeDigits (c :: rest))
    else none

/-- The optional fraction of a JSON number: a dot and at least one digit. -/
def parseFraction : JSString → Option (List Nat × JSString)
  | [] => some ([], [])
  | c :: rest =>
    if c = 46 then
      match takeDigits rest with
      | ([], _) => none
      | (ds, rest1) => some (ds, rest1)
    else some ([], c :: rest)

/-- The digits of an exponent: at least one. -/
def parseExpDigits (negative : Bool) (s : JSString) : Option (Int × JSString) :=
  match takeDigits s with
  | ([], _) => none
  | (ds, rest) => some (if negative then -(digitsValue ds : Int) else (digitsValue ds : Int), rest)

/-- The optional exponent of a JSON number. -/
def parseExponent : JSString → Option (Int × JSString)
  | [] => some (0, [])
  | c :: rest =>
    if c = 101 ∨ c = 69 then
      match rest with
      | [] => none
      | sgn :: rest1 =>
        if sgn = 43 then parseExpDigits false rest1
        else if sgn = 45 then parseExpDigits true rest1
        else parseExpDigits false (sgn :: rest1)
    else some (0, c :: rest)

/-- The unsigned part of a JSON number. -/
def parseUnsigned (negative : Bool) (s : JSString) : Option (JSON × JSString) :=
  match parseIntPart s with
  | none => none
  | some (ds, rest) =>
    match parseFraction rest with
    | none => none
    | some (fs, rest1) =>
      match parseExponent rest1 with
      | none => none
      | some (e, rest2) =>
        let m : Int := digitsValue (ds ++ fs)
        some (JSON.num (if negative then -m else m) (e - fs.length), rest2)

/-- A JSON number. -/
def parseNumber : JSString → Option (JSON × JSString)
  | [] => none
  | c :: rest => if c = 45 then parseUnsigned true rest else parseUnsigned false (c :: rest)

/-- Read the keyword `word` and return `v`. -/
def parseKeyword (word : JSString) (v : JSON) (s : JSString) : Option (JSON × JSString) :=
  if s.take word.length = word then some (v, s.drop word.length) else none

/-- The elements of a non-empty array after `[`, given the parser of one value:
values separated by commas, closed by `]`. -/
def parseElems (pv : JSString → Option (JSON × JSString)) :
    Nat → JSString → Option (List JSON × JSString)
  | 0, _ => none
  | fuel + 1, s =>
    match pv s with
    | none => none
    | some (v, rest) =>
      match skipWs rest with
      | [] => none
      | c :: rest1 =>
        if c = 44 then
          match parseElems pv fuel rest1 with
          | none => none
          | some (vs, rest2) => some (v :: vs, rest2)
        else if c = 93 then some ([v], rest1)
        else none

/-- The members of a non-empty object after `{`, given the parser of one value:
`"key" : value` separated by commas, closed by `}`. -/
def parseMembers (pv : JSString → Option (JSON × JSString)) :
    Nat → JSString → Option (List (JSString × JSON) × JSString)
  | 0, _ => none
  | fuel + 1, s =>
    match skipWs s with
    | [] => none
    | q :: rest =>
      if q = 34 then
        match parseStringBody rest with
        | none => none
        | some (key, rest1) =>
          match skipWs rest1 with
          | [] => none
          | colon :: rest2 =>
            if colon = 58 then
              match pv rest2 with
              | none => none
              | some (v, rest3) =>
                match skipWs rest3 with
                | [] => none
                | c :: rest4 =>
                  if c = 44 then
                    match parseMembers pv fuel rest4 with
                    | none => none
                    | some (ms, rest5) => some ((key, v) :: ms, rest5)
                  else if c = 125 then some ([(key, v)], rest4)
                  else none
            else none
      else none

/-- One JSON value, white space in front of it skipped. The fuel bounds the
nesting depth of the value and the number of elements of each array and object. -/
def parseValue : Nat → JSString → Option (JSON × JSString)
  | 0, _ => none
  | fuel + 1, s =>
    match skipWs s with
    | [] => none
    | c :: rest =>
      if c = 123 then
        match skipWs rest with
        | [] => none
        | d :: rest1 =>
          if d = 125 then some (JSON.obj [], rest1)
          else
            match parseMembers (parseValue fuel) s.length (d :: rest1) with
            | none => none
            | some (ms, rest2) => some (JSON.obj ms, rest2)
      else if c = 91 then
        match skipWs rest with
        | [] => none
        | d :: rest1 =>
          if d = 93 then some (JSON.arr [], rest1)
          else
            match parseElems (parseValue fuel) s.length (d :: rest1) with
            | none => none
            | some (vs, rest2) => some (JSON.arr vs, rest2)
      else if c = 34 then
        match parseStringBody rest with
        | none => none
        | some (str, rest1) => some (JSON.str str, rest1)
      else if c = 116 then parseKeyword [116, 114, 117, 101] (JSON.bool true) (c :: rest)
      else if c = 102 then parseKeyword [102, 97, 108, 115, 101] (JSON.bool false) (c :: rest)
      else if c = 110 then parseKeyword [110, 117, 108, 108] JSON.null (c :: rest)
      else parseNumber (c :: rest)

/-- The call `JSON.parse(text)`: one value and nothing but white space after it;
`none` stands for the SyntaxError it throws. -/
def jsonParse (text : JSString) : Option JSON :=
  match parseValue (text.length + 1) text with
  | none => none
  | some (v, rest) => if skipWs rest = [] then some v else none

/-- The integer a JSON number denotes, if it denotes one. -/
def numToInt (mant exp : Int) : Option Int :=
  if 0 ≤ exp then some (mant * 10 ^ exp.toNat)
  else if mant % 10 ^ (-exp).toNat = 0 then some (mant / 10 ^ (-exp).toNat)
  else none

/-- The key `id`. -/
def keyId : JSString := [105, 100]

/-- The key `complete`. -/
def keyComplete : JSString := [99, 111, 109, 112, 108, 101, 116, 101]

/-- The key `text`. -/
def keyText : JSString := [116, 101, 120, 116]

/-- A parsed value read as a todo item: an object with the members `id` (an
integer), `complete` (a boolean) and `text` (a string), in the order in which
`addTodo` creates them. -/
def decodeTodo : JSON → Option Todo
  | JSON.obj [(k1, JSON.num m e), (k2, JSON.bool b), (k3, JSON.str s)] =>
    if k1 = keyId ∧ k2 = keyComplete ∧ k3 = keyText then
      (numToInt m e).map fun i => { id := i, complete := b, text := s }
    else none
  | _ => none

/-- Read every element of a list as a todo item. -/
def decodeAll : List JSON → Option (List Todo)
  | [] => some []
  | v :: vs =>
    match decodeTodo v, decodeAll vs with
    | some t, some ts => some (t :: ts)
    | _, _ => none

/-- A parsed value read as a list of todo items. -/
def decodeTodos : JSON → Option (List Todo)
  | JSON.arr vs => decodeAll vs
  | _ => none

/-- What the load effect does to the list. -/
inductive LoadResult where
  /-- The list held by the component after the effect. -/
  | ok (todos : List Todo)
  /-- The call `setTodos` received a value that is not a list of todo items. -/
  | foreign (v : JSON)
  /-- The call `JSON.parse` threw and the effect did not complete. -/
  | threw

/-- The load effect (lines 30-36) run on the first render, where the list is `[]`:
a slot that is absent or holds the empty string is falsy and leaves the list as it
is; any other string is handed to `JSON.parse` and the result to `setTodos`. -/
def load (slot : Option JSString) : LoadResult :=
  match slot with
  | none => LoadResult.ok []
  | some storedTodos =>
    if storedTodos = [] then LoadResult.ok []
    else
      match jsonParse storedTodos with
      | none => LoadResult.threw
      | some v =>
        match decodeTodos v with
        | some todos => LoadResult.ok todos
        | none => LoadResult.foreign v

/-! ## The component state and its handlers -/

/-- The state of the component: the two `useState` cells, the values of the two
input elements reached through `todoInputRef` and `todoEditInputRef`, and the
`localStorage` slot `"todos"` (`none` when the key is absent). -/
structure State where
  todos : List Todo
  editingTodoId : Option Int
  todoInput : JSString
  todoEditInput : JSString
  storage : Option JSString
  deriving DecidableEq, Repr

/-- The state of the first render, before the load effect: `useState([])`,
`useState(null)`, empty inputs, and whatever the slot holds. -/
def initialState (slot : Option JSString) : State :=
  { todos := [], editingTodoId := none, todoInput := [], todoEditInput := [], storage := slot }

/-- The user types `rawText` into the add input. -/
def typeTodoInput (rawText : JSString) (st : State) : State :=
  { st with todoInput := rawText }

/-- The user types `newText` into the edit input. -/
def typeTodoEditInput (newText : JSString) (st : State) : State :=
  { st with todoEditInput := newText }

/-- The handler `addTodo` (lines 41-49), at clock reading `now`. -/
def addTodo (now : Int) (st : State) : State :=
  let todoText := st.todoInput
  if trim todoText ≠ [] then
    let newTodo : Todo := { id := now, complete := false, text := todoText }
    { st with
      todos := st.todos ++ [newTodo]
      storage := some (stringify (st.todos ++ [newTodo]))
      todoInput := [] }
  else st

/-- The handler `toggleComplete` (lines 56-62). -/
def toggleComplete (id : Int) (st : State) : State :=
  let updatedTodos := st.todos.map fun todo =>
    if todo.id = id then { todo with complete := !todo.complete } else todo
  { st with todos := updatedTodos, storage := some (stringify updatedTodos) }

/-- The handler `deleteTodo` (lines 70-74). -/
def deleteTodo (id : Int) (st : State) : State :=
  let updatedTodos := st.todos.filter fun todo => todo.id ≠ id
  { st with storage := some (stringify updatedTodos), todos := updatedTodos }

/-- The handler `editTodo` (lines 83-86). -/
def editTodo (id : Int) (value : JSString) (st : State) : State :=
  { st with editingTodoId := some id, todoInput := value }

/-- An exception thrown by a handler. -/
inductive JSError where
  /-- Reading a property of `null`. -/
  | typeError
  deriving DecidableEq, Repr

/-- The value of `todoEditInputRef.current`: the edit input is rendered, and the ref
attached to it, only while `editingTodoId !== null` (lines 114-116); in every other
render the ref holds `null`. -/
def todoEditInputRef (st : State) : Option JSString :=
  match st.editingTodoId with
  | none => none
  | some _ => some st.todoEditInput

/-- The handler `updateTodo` (lines 92-101). Line 93 reads `.value` of
`todoEditInputRef.current` and throws a TypeError when that is `null`, before the list,
the edit target or the slot are touched. -/
def updateTodo (st : State) : Except JSError State :=
  match todoEditInputRef st with
  | none => Except.error JSError.typeError
  | some newText =>
    let updatedTodos := st.todos.map fun todo =>
      if some todo.id = st.editingTodoId then { todo with text := newText } else todo
    Except.ok
      { st with
        todos := updatedTodos
        editingTodoId := none
        todoEditInput := []
        storage := some (stringify updatedTodos) }

/-- The handler `cancelEdit` (lines 106-108). -/
def cancelEdit (st : State) : State :=
  { st with editingTodoId := none }


/-! ## Sequences of user actions -/

/-- One user action on the component. -/
inductive Op where
  /-- Type `rawText` into the add input and press Add at clock reading `now`. -/
  | add (rawText : JSString) (now : Int)
  /-- Press the complete button of the item `id`. -/
  | toggle (id : Int)
  /-- Press the delete button of the item `id`. -/
  | delete (id : Int)
  /-- Press the edit button of the item `id`, whose text is `value`. -/
  | beginEdit (id : Int) (value : JSString)
  /-- Type `newText` into the edit input and press Update. -/
  | update (newText : JSString)
  /-- Press the close button of the edit form. -/
  | cancel

/-- The state after one action. Where `updateTodo` throws, it does so before its first
effect, and the state is the one before the action. -/
def step (st : State) : Op → State
  | Op.add rawText now => addTodo now (typeTodoInput rawText st)
  | Op.toggle id => toggleComplete id st
  | Op.delete id => deleteTodo id st
  | Op.beginEdit id value => editTodo id value st
  | Op.update newText =>
    match updateTodo (typeTodoEditInput newText st) with
    | Except.ok st1 => st1
    | Except.error _ => st
  | Op.cancel => cancelEdit st

/-- The state after a sequence of actions. -/
def run (st : State) (ops : List Op) : State := ops.foldl step st

/-- The actions that, run in the state `st`, reach a `localStorage.setItem` call. -/
def Op.writes (st : State) : Op → Bool
  | Op.add rawText _ => decide (trim rawText ≠ [])
  | Op.toggle _ => true
  | Op.delete _ => true
  | Op.beginEdit _ _ => false
  | Op.update _ => decide (st.editingTodoId ≠ none)
  | Op.cancel => false

/-- No action of the sequence, run from the state `st`, reaches a
`localStorage.setItem` call. -/
def noWrites : State → List Op → Bool
  | _, [] => true
  | st, op :: ops => !(Op.writes st op) && noWrites (step st op) ops

/-! ## Auxiliary definitions of the proofs -/

/-- The values of the digits of a decimal numeral. -/
def digitValues (s : JSString) : List Nat := s.map fun c => c - 48

/-- The parse tree of the serialisation of one item. -/
def todoJSON (t : Todo) : JSON :=
  JSON.obj [(keyId, JSON.num t.id 0), (keyComplete, JSON.bool t.complete),
    (keyText, JSON.str t.text)]

/-- A parser that consumes at least one code unit when it succeeds. -/
def Shrinks {α : Type} (p : JSString → Option (α × JSString)) : Prop :=
  ∀ x v r, p x = some (v, r) → r.length < x.length

/-! ## Lemmas on `trim` -/

theorem trimStart_eq_nil_of_all_whiteSpace (s : JSString)
    (h : ∀ c ∈ s, isWhiteSpace c = true) : trimStart s = [] := by
  unfold trimStart
  exact List.dropWhile_eq_nil_iff.mpr h

theorem trim_eq_nil_of_all_whiteSpace (s : JSString)
    (h : ∀ c ∈ s, isWhiteSpace c = true) : trim s = [] := by
  unfold trim
  rw [trimStart_eq_nil_of_all_whiteSpace s h]
  rfl

/-! ## The handlers on the list -/

theorem addTodo_of_nonblank (now : Int) (st : State) (h : trim st.todoInput ≠ []) :
    addTodo now st =
      { st with
        todos := st.todos ++ [{ id := now, complete := false, text := st.todoInput }]
        storage := some (stringify
          (st.todos ++ [{ id := now, complete := false, text := st.todoInput }]))
        todoInput := [] } := by
  simp [addTodo, h]

theorem addTodo_of_blank (now : Int) (st : State) (h : trim st.todoInput = []) :
    addTodo now st = st := by
  simp [addTodo, h]

theorem toggle_toggle_item (id : Int) (todo : Todo) :
    (fun t : Todo => if t.id = id then { t with complete := !t.complete } else t)
      ((fun t : Todo => if t.id = id then { t with complete := !t.complete } else t) todo)
      = todo := by
  cases todo with
  | mk i c t =>
    by_cases h : i = id
    · simp [h]
    · simp [h]

theorem filter_ne_id_of_not_mem (id : Int) (l : List Todo) (h : ∀ t ∈ l, t.id ≠ id) :
    l.filter (fun todo => decide (todo.id ≠ id)) = l := by
  apply List.filter_eq_self.mpr
  intro t ht
  simpa using h t ht

theorem map_toggle_of_not_mem (id : Int) (l : List Todo) (h : ∀ t ∈ l, t.id ≠ id) :
    l.map (fun todo => if todo.id = id then { todo with complete := !todo.complete } else todo)
      = l := by
  induction l with
  | nil => rfl
  | cons t ts ih =>
    have h1 : t.id ≠ id := h t (List.mem_cons_self _ _)
    have h2 : ∀ u ∈ ts, u.id ≠ id := fun u hu => h u (List.mem_cons_of_mem _ hu)
    simp [h1, ih h2]

/-! ## Round trip of the serialised list -/

theorem digitsValue_append_single (ds : List Nat) (d : Nat) :
    digitsValue (ds ++ [d]) = digitsValue ds * 10 + d := by
  simp [digitsValue, List.foldl_append]

theorem decimalDigits_isDigit (fuel n : Nat) :
    ∀ c ∈ decimalDigits fuel n, isDigit c = true := by
  induction fuel generalizing n with
  | zero => intro c hc; simp [decimalDigits] at hc
  | succ k ih =>
    intro c hc
    unfold decimalDigits at hc
    split at hc
    · simp at hc
      subst hc
      simp [isDigit]; omega
    · rw [List.mem_append] at hc
      rcases hc with hc | hc
      · exact ih _ c hc
      · simp at hc
        subst hc
        simp [isDigit]; omega

theorem decimalDigits_value (fuel n : Nat) (h : n < 10 ^ fuel) :
    digitsValue (digitValues (decimalDigits fuel n)) = n := by
  induction fuel generalizing n with
  | zero => simp at h; subst h; rfl
  | succ k ih =>
    unfold decimalDigits
    split
    · simp [digitValues, digitsValue]
    · have h1 : n / 10 < 10 ^ k := by
        rw [Nat.div_lt_iff_lt_mul (by decide)]
        rw [pow_succ] at h
        exact h
      have := ih (n / 10) h1
      simp only [digitValues, List.map_append, List.map_cons, List.map_nil] at this ⊢
      rw [digitsValue_append_single, this]
      omega

theorem decimalDigits_head (fuel n : Nat) (h : n < 10 ^ fuel) (hn : 0 < n) :
    ∃ c cs, decimalDigits fuel n = c :: cs ∧ 49 ≤ c ∧ c ≤ 57 := by
  induction fuel generalizing n with
  | zero => simp at h; omega
  | succ k ih =>
    unfold decimalDigits
    split
    · exact ⟨48 + n, [], rfl, by omega, by omega⟩
    · have h1 : n / 10 < 10 ^ k := by
        rw [Nat.div_lt_iff_lt_mul (by decide)]
        rw [pow_succ] at h
        exact h
      obtain ⟨c, cs, hc, h49, h57⟩ := ih (n / 10) h1 (by omega)
      exact ⟨c, cs ++ [48 + n % 10], by rw [hc]; rfl, h49, h57⟩

theorem takeDigits_append (ds rest : JSString) (h : ∀ c ∈ ds, isDigit c = true)
    (hrest : ∀ c r, rest = c :: r → isDigit c = false) :
    takeDigits (ds ++ rest) = (digitValues ds, rest) := by
  induction ds with
  | nil =>
    cases rest with
    | nil => rfl
    | cons c r => simp [takeDigits, hrest c r rfl, digitValues]
  | cons d ds ih =>
    have hd : isDigit d = true := h d (List.mem_cons_self _ _)
    have := ih (fun c hc => h c (List.mem_cons_of_mem _ hc))
    simp [takeDigits, hd, this, digitValues]

theorem lt_ten_pow_succ (n : Nat) : n < 10 ^ (n + 1) := by
  calc n < n + 1 := Nat.lt_succ_self n
    _ < 10 ^ (n + 1) := Nat.lt_pow_self (by decide) _

theorem skipWs_cons (c : Nat) (rest : JSString) (h : isJSONSpace c = false) :
    skipWs (c :: rest) = c :: rest := by
  simp [skipWs, h]

theorem natToString_head (n : Nat) :
    ∃ c cs, natToString n = c :: cs ∧ 48 ≤ c ∧ c ≤ 57 ∧ (c = 48 → n = 0 ∧ cs = []) := by
  rcases Nat.eq_zero_or_pos n with h | h
  · subst h
    exact ⟨48, [], rfl, by omega, by omega, fun _ => ⟨rfl, rfl⟩⟩
  · obtain ⟨c, cs, hc, h49, h57⟩ := decimalDigits_head (n + 1) n (lt_ten_pow_succ n) h
    exact ⟨c, cs, hc, by omega, h57, fun h48 => by omega⟩

theorem parseIntPart_natToString (n : Nat) (r : JSString) :
    parseIntPart (natToString n ++ 44 :: r) = some (digitValues (natToString n), 44 :: r) := by
  obtain ⟨c, cs, hc, h48, h57, h0⟩ := natToString_head n
  by_cases hz : c = 48
  · obtain ⟨hn, hcs⟩ := h0 hz
    rw [hc, hz, hcs]
    rfl
  · have hd : isDigit c = true := by simp [isDigit]; omega
    have ht := takeDigits_append (natToString n) (44 :: r)
      (decimalDigits_isDigit (n + 1) n) (by
        intro d r1 hr
        injection hr with hr1 _
        subst hr1
        rfl)
    rw [hc] at ht ⊢
    simp only [List.cons_append] at ht ⊢
    simp only [parseIntPart, hz, hd, if_false, if_true]
    rw [ht]

theorem parseUnsigned_natToString (negative : Bool) (n : Nat) (r : JSString) :
    parseUnsigned negative (natToString n ++ 44 :: r) =
      some (JSON.num (if negative then -(n : Int) else (n : Int)) 0, 44 :: r) := by
  have hv : digitsValue (digitValues (natToString n)) = n :=
    decimalDigits_value (n + 1) n (lt_ten_pow_succ n)
  simp [parseUnsigned, parseIntPart_natToString, parseFraction, parseExponent, hv]

theorem intToString_head (i : Int) :
    ∃ c cs, intToString i = c :: cs ∧ (c = 45 ∨ (48 ≤ c ∧ c ≤ 57)) := by
  cases i with
  | ofNat n =>
    obtain ⟨c, cs, hc, h48, h57, _⟩ := natToString_head n
    exact ⟨c, cs, hc, Or.inr ⟨h48, h57⟩⟩
  | negSucc n => exact ⟨45, natToString (n + 1), rfl, Or.inl rfl⟩

/-- The numeral of an integer is read back as that integer. -/
theorem parseNumber_intToString (i : Int) (r : JSString) :
    parseNumber (intToString i ++ 44 :: r) = some (JSON.num i 0, 44 :: r) := by
  cases i with
  | ofNat n =>
    obtain ⟨c, cs, hc, h48, h57, _⟩ := natToString_head n
    have hu := parseUnsigned_natToString false n r
    simp only [intToString]
    rw [hc] at hu ⊢
    have h45 : c ≠ 45 := by omega
    simp only [List.cons_append] at hu ⊢
    simp only [parseNumber, h45, if_false]
    rw [hu]
    simp
  | negSucc n =>
    have hu := parseUnsigned_natToString true (n + 1) r
    simp only [intToString, List.cons_append, parseNumber, if_true]
    rw [hu]
    simp [Int.negSucc_eq]

theorem parseValue_intToString (fuel : Nat) (i : Int) (r : JSString) :
    parseValue (fuel + 1) (intToString i ++ 44 :: r) = some (JSON.num i 0, 44 :: r) := by
  have hn := parseNumber_intToString i r
  obtain ⟨c, cs, hc, hcase⟩ := intToString_head i
  rw [hc] at hn ⊢
  simp only [List.cons_append] at hn ⊢
  have hs : isJSONSpace c = false := by
    simp [isJSONSpace]; omega
  have h1 : c ≠ 123 := by omega
  have h2 : c ≠ 91 := by omega
  have h3 : c ≠ 34 := by omega
  have h4 : c ≠ 116 := by omega
  have h5 : c ≠ 102 := by omega
  have h6 : c ≠ 110 := by omega
  rw [parseValue, skipWs_cons c _ hs]
  simp only [h1, h2, h3, h4, h5, h6, if_false]
  exact hn

theorem hexVal_hexDigit (d : Nat) (h : d < 16) : hexVal (hexDigit d) = some d := by
  interval_cases d <;> rfl

theorem hex4_unicodeEscape (c : Nat) (h : c < 65536) :
    hex4 (hexDigit (c / 4096 % 16)) (hexDigit (c / 256 % 16)) (hexDigit (c / 16 % 16))
      (hexDigit (c % 16)) = some c := by
  have h3 : c / 4096 % 16 < 16 := Nat.mod_lt _ (by decide)
  have h2 : c / 256 % 16 < 16 := Nat.mod_lt _ (by decide)
  have h1 : c / 16 % 16 < 16 := Nat.mod_lt _ (by decide)
  have h0 : c % 16 < 16 := Nat.mod_lt _ (by decide)
  simp only [hex4, hexVal_hexDigit _ h3, hexVal_hexDigit _ h2, hexVal_hexDigit _ h1,
    hexVal_hexDigit _ h0]
  congr 1
  omega

theorem parseStringBody_cons (c : Nat) (rest : JSString) :
    parseStringBody (c :: rest) =
      if c = 34 then some ([], rest)
      else if c = 92 then
        match rest with
        | [] => none
        | e :: rest1 =>
          if e = 117 then
            match rest1 with
            | a :: b :: c2 :: d :: rest2 =>
              match hex4 a b c2 d with
              | some u => consUnit u (parseStringBody rest2)
              | none => none
            | _ => none
          else
            match unescape e with
            | some u => consUnit u (parseStringBody rest1)
            | none => none
      else if c < 32 then none
      else consUnit c (parseStringBody rest) := by
  rw [parseStringBody.eq_def]
  rfl

theorem parseStringBody_quote (rest : JSString) :
    parseStringBody (34 :: rest) = some ([], rest) := by
  rw [parseStringBody_cons]
  rfl

theorem parseStringBody_escape (e u : Nat) (tail : JSString) (h : e ≠ 117)
    (hu : unescape e = some u) :
    parseStringBody (92 :: e :: tail) = consUnit u (parseStringBody tail) := by
  rw [parseStringBody_cons]
  simp [h, hu]

theorem parseStringBody_verbatim (c : Nat) (tail : JSString) (h34 : c ≠ 34) (h92 : c ≠ 92)
    (h32 : ¬ c < 32) : parseStringBody (c :: tail) = consUnit c (parseStringBody tail) := by
  rw [parseStringBody_cons]
  simp only [h34, h92, h32, if_false]

theorem parseStringBody_unicodeEscape (c : Nat) (tail : JSString) (h : c < 65536) :
    parseStringBody (unicodeEscape c ++ tail) = consUnit c (parseStringBody tail) := by
  simp only [unicodeEscape, List.cons_append, List.nil_append]
  rw [parseStringBody_cons]
  simp [hex4_unicodeEscape c h]

theorem parseStringBody_quoteUnit (c : Nat) (tail : JSString) :
    parseStringBody (quoteUnit c ++ tail) = consUnit c (parseStringBody tail) := by
  unfold quoteUnit
  split_ifs with h8 h9 h10 h12 h13 h34 h92 hesc
  · subst h8; exact parseStringBody_escape _ _ tail (by decide) rfl
  · subst h9; exact parseStringBody_escape _ _ tail (by decide) rfl
  · subst h10; exact parseStringBody_escape _ _ tail (by decide) rfl
  · subst h12; exact parseStringBody_escape _ _ tail (by decide) rfl
  · subst h13; exact parseStringBody_escape _ _ tail (by decide) rfl
  · subst h34; exact parseStringBody_escape _ _ tail (by decide) rfl
  · subst h92; exact parseStringBody_escape _ _ tail (by decide) rfl
  · apply parseStringBody_unicodeEscape
    simp [isLeadSurrogate, isTrailSurrogate] at hesc
    omega
  · simp only [Bool.or_eq_true, decide_eq_true_eq, not_or] at hesc
    exact parseStringBody_verbatim c tail h34 h92 hesc.1.1

/-- A quoted string is read back as the string that was quoted. -/
theorem parseStringBody_quoteBody (s rest : JSString) :
    parseStringBody (quoteBody s ++ 34 :: rest) = some (s, rest) := by
  induction s using quoteBody.induct with
  | case1 => exact parseStringBody_quote rest
  | case2 c =>
    rw [quoteBody, parseStringBody_quoteUnit, parseStringBody_quote]
    rfl
  | case3 c d tail hpair ih =>
    have hc : 55296 ≤ c := by
      simp [isLeadSurrogate, isTrailSurrogate] at hpair; omega
    have hd : 56320 ≤ d := by
      simp [isLeadSurrogate, isTrailSurrogate] at hpair; omega
    rw [quoteBody, if_pos hpair]
    simp only [List.cons_append]
    rw [parseStringBody_verbatim c _ (by omega) (by omega) (by omega),
      parseStringBody_verbatim d _ (by omega) (by omega) (by omega), ih]
    rfl
  | case4 c d tail hpair ih =>
    rw [quoteBody, if_neg hpair, List.append_assoc, parseStringBody_quoteUnit, ih]
    rfl

theorem parseMembers_comma (pv : JSString → Option (JSON × JSString)) (n : Nat)
    (key s1 X Y : JSString) (v : JSON)
    (hk : parseStringBody s1 = some (key, 58 :: X)) (hv : pv X = some (v, 44 :: Y)) :
    parseMembers pv (n + 1) (34 :: s1) =
      match parseMembers pv n Y with
      | none => none
      | some (ms, r) => some ((key, v) :: ms, r) := by
  rw [parseMembers]
  simp [skipWs, isJSONSpace, hk, hv]

theorem parseMembers_close (pv : JSString → Option (JSON × JSString)) (n : Nat)
    (key s1 X Y : JSString) (v : JSON)
    (hk : parseStringBody s1 = some (key, 58 :: X)) (hv : pv X = some (v, 125 :: Y)) :
    parseMembers pv (n + 1) (34 :: s1) = some ([(key, v)], Y) := by
  rw [parseMembers]
  simp [skipWs, isJSONSpace, hk, hv]

theorem parseValue_boolToString (fuel : Nat) (b : Bool) (r : JSString) :
    parseValue (fuel + 1) (boolToString b ++ 44 :: r) = some (JSON.bool b, 44 :: r) := by
  cases b
  · rw [parseValue]
    simp [boolToString, skipWs, isJSONSpace, parseKeyword]
  · rw [parseValue]
    simp [boolToString, skipWs, isJSONSpace, parseKeyword]

theorem parseValue_quoteJSONString (fuel : Nat) (s r : JSString) :
    parseValue (fuel + 1) (quoteJSONString s ++ r) = some (JSON.str s, r) := by
  rw [parseValue]
  simp [quoteJSONString, skipWs, isJSONSpace, parseStringBody_quoteBody]

theorem stringifyTodo_append (t : Todo) (rest : JSString) :
    stringifyTodo t ++ rest =
      123 :: 34 :: (quoteBody keyId ++ 34 :: 58 :: (intToString t.id ++ 44 :: 34 ::
        (quoteBody keyComplete ++ 34 :: 58 :: (boolToString t.complete ++ 44 :: 34 ::
          (quoteBody keyText ++ 34 :: 58 :: (quoteJSONString t.text ++ 125 :: rest)))))) := by
  simp [stringifyTodo, keyId, keyComplete, keyText, quoteBody, quoteUnit, isLeadSurrogate,
    isTrailSurrogate]

theorem parseMembers_todo (fuel k : Nat) (t : Todo) (rest : JSString) :
    parseMembers (parseValue (fuel + 1)) (k + 3)
      (34 :: (quoteBody keyId ++ 34 :: 58 :: (intToString t.id ++ 44 :: 34 ::
        (quoteBody keyComplete ++ 34 :: 58 :: (boolToString t.complete ++ 44 :: 34 ::
          (quoteBody keyText ++ 34 :: 58 :: (quoteJSONString t.text ++ 125 :: rest)))))))
      = some ([(keyId, JSON.num t.id 0), (keyComplete, JSON.bool t.complete),
          (keyText, JSON.str t.text)], rest) := by
  rw [parseMembers_comma _ _ keyId _ _ _ _ (parseStringBody_quoteBody keyId _)
    (parseValue_intToString fuel t.id _)]
  rw [parseMembers_comma _ _ keyComplete _ _ _ _ (parseStringBody_quoteBody keyComplete _)
    (parseValue_boolToString fuel t.complete _)]
  rw [parseMembers_close _ _ keyText _ _ _ _ (parseStringBody_quoteBody keyText _)
    (parseValue_quoteJSONString fuel t.text _)]

theorem parseValue_object_of (fuel : Nat) (X rest : JSString) (ms : List (JSString × JSON))
    (hX : 1 ≤ X.length)
    (h : ∀ k, parseMembers (parseValue fuel) (k + 3) (34 :: X) = some (ms, rest)) :
    parseValue (fuel + 1) (123 :: 34 :: X) = some (JSON.obj ms, rest) := by
  obtain ⟨k, hk⟩ := Nat.exists_eq_add_of_le' hX
  have h34 : skipWs (34 :: X) = 34 :: X := skipWs_cons 34 X rfl
  have h123 : skipWs (123 :: 34 :: X) = 123 :: 34 :: X := skipWs_cons 123 _ rfl
  rw [parseValue, h123]
  simp only [if_true, h34, List.length_cons, hk]
  have hk3 : k + 1 + 1 + 1 = k + 3 := rfl
  rw [hk3, h k]
  simp

/-- The serialisation of one item is read back as its parse tree. -/
theorem parseValue_stringifyTodo (fuel : Nat) (t : Todo) (rest : JSString) :
    parseValue (fuel + 2) (stringifyTodo t ++ rest) = some (todoJSON t, rest) := by
  rw [stringifyTodo_append]
  apply parseValue_object_of
  · simp only [List.length_cons, List.length_append]
    omega
  · intro k
    exact parseMembers_todo fuel k t rest

theorem parseElems_succ (pv : JSString → Option (JSON × JSString)) (fuel : Nat)
    (s : JSString) :
    parseElems pv (fuel + 1) s =
      match pv s with
      | none => none
      | some (v, rest) =>
        match skipWs rest with
        | [] => none
        | c :: rest1 =>
          if c = 44 then
            match parseElems pv fuel rest1 with
            | none => none
            | some (vs, rest2) => some (v :: vs, rest2)
          else if c = 93 then some ([v], rest1)
          else none := rfl

theorem parseElems_stringifyItems (f fuel : Nat) (t : Todo) (ts : List Todo) (rest : JSString)
    (hfuel : (t :: ts).length ≤ fuel) :
    parseElems (parseValue (f + 2)) fuel (stringifyItems (t :: ts) ++ 93 :: rest) =
      some ((t :: ts).map todoJSON, rest) := by
  induction ts generalizing t fuel with
  | nil =>
    obtain ⟨n, rfl⟩ := Nat.exists_eq_add_of_le' hfuel
    rw [List.length_singleton, parseElems_succ, stringifyItems, parseValue_stringifyTodo]
    simp [skipWs, isJSONSpace]
  | cons u us ih =>
    obtain ⟨n, rfl⟩ := Nat.exists_eq_add_of_le' hfuel
    have hn : (u :: us).length ≤ n + (us.length + 1) := by
      simp only [List.length_cons]; omega
    have hi := ih (n + (us.length + 1)) u hn
    have hl : n + (t :: u :: us).length = n + (us.length + 1) + 1 := by
      simp only [List.length_cons]
      omega
    rw [hl, parseElems_succ, stringifyItems, List.append_assoc, parseValue_stringifyTodo]
    simp only [List.cons_append]
    rw [skipWs_cons 44 _ rfl]
    simp only [if_true]
    rw [hi]
    rfl

theorem stringifyTodo_head (t : Todo) : ∃ Y, stringifyTodo t = 123 :: Y :=
  ⟨_, rfl⟩

theorem stringifyItems_head (t : Todo) (ts : List Todo) :
    ∃ Y, stringifyItems (t :: ts) = 123 :: Y := by
  obtain ⟨Y, hY⟩ := stringifyTodo_head t
  cases ts with
  | nil => exact ⟨Y, hY⟩
  | cons u us => exact ⟨Y ++ 44 :: stringifyItems (u :: us), by rw [stringifyItems, hY]; rfl⟩

theorem length_le_stringifyItems (l : List Todo) : l.length ≤ (stringifyItems l).length := by
  induction l with
  | nil => simp
  | cons t ts ih =>
    cases ts with
    | nil =>
      obtain ⟨Y, hY⟩ := stringifyTodo_head t
      simp [stringifyItems, hY]
    | cons u us =>
      rw [stringifyItems]
      simp only [List.length_cons, List.length_append] at ih ⊢
      omega

theorem parseValue_array_of (fuel : Nat) (X rest : JSString) (vs : List JSON)
    (h : parseElems (parseValue fuel) (X.length + 2) (123 :: X) = some (vs, rest)) :
    parseValue (fuel + 1) (91 :: 123 :: X) = some (JSON.arr vs, rest) := by
  have h123 : skipWs (123 :: X) = 123 :: X := skipWs_cons 123 X rfl
  have h91 : skipWs (91 :: 123 :: X) = 91 :: 123 :: X := skipWs_cons 91 _ rfl
  rw [parseValue, h91]
  simp only [if_true, h123, List.length_cons]
  have hk : X.length + 1 + 1 = X.length + 2 := rfl
  rw [hk, h]
  simp

theorem parseValue_stringify (l : List Todo) :
    parseValue ((stringify l).length + 1) (stringify l)
      = some (JSON.arr (l.map todoJSON), []) := by
  cases l with
  | nil => rfl
  | cons t ts =>
    obtain ⟨Y, hY⟩ := stringifyItems_head t ts
    have hlen := length_le_stringifyItems (t :: ts)
    have hp := parseElems_stringifyItems (Y.length + 1) ((Y ++ [93]).length + 2) t ts [] (by
      rw [hY] at hlen
      simp only [List.length_cons, List.length_append] at hlen ⊢
      omega)
    have hf : (stringify (t :: ts)).length + 1 = (Y.length + 1 + 2) + 1 := by
      simp [stringify, hY]
    rw [hf]
    simp only [stringify, hY, List.cons_append] at hp ⊢
    exact parseValue_array_of _ _ _ _ hp

theorem jsonParse_stringify (l : List Todo) :
    jsonParse (stringify l) = some (JSON.arr (l.map todoJSON)) := by
  rw [jsonParse, parseValue_stringify]
  rfl

theorem numToInt_zero (i : Int) : numToInt i 0 = some i := by
  simp [numToInt]

theorem decodeTodo_todoJSON (t : Todo) : decodeTodo (todoJSON t) = some t := by
  simp [decodeTodo, todoJSON, numToInt_zero]

theorem decodeAll_todoJSON (l : List Todo) : decodeAll (l.map todoJSON) = some l := by
  induction l with
  | nil => rfl
  | cons t ts ih => simp [decodeAll, decodeTodo_todoJSON, ih]

theorem stringify_ne_nil (l : List Todo) : stringify l ≠ [] := by
  simp [stringify]

/-- Parsing the serialisation of a list of todo items gives the list back. -/
theorem load_stringify (l : List Todo) : load (some (stringify l)) = LoadResult.ok l := by
  simp [load, stringify_ne_nil, jsonParse_stringify, decodeTodos, decodeAll_todoJSON]

/-! ## The fuel of the parser is never exhausted -/

theorem skipWs_length_le (s : JSString) : (skipWs s).length ≤ s.length := by
  induction s with
  | nil => simp [skipWs]
  | cons c rest ih =>
    rw [skipWs]
    split
    · simp only [List.length_cons]; omega
    · exact Nat.le_refl _

theorem consUnit_eq_some (c : Nat) (p : Option (JSString × JSString)) (v r : JSString)
    (h : consUnit c p = some (v, r)) : ∃ v1, p = some (v1, r) := by
  cases p with
  | none => simp [consUnit] at h
  | some q =>
    simp only [consUnit, Option.map_some', Option.some.injEq, Prod.mk.injEq] at h
    exact ⟨q.1, by rw [← h.2]⟩

theorem parseStringBody_shrinks_aux (n : Nat) :
    ∀ x : JSString, x.length ≤ n → ∀ v r, parseStringBody x = some (v, r) →
      r.length < x.length := by
  induction n with
  | zero =>
    intro x hx v r h
    have hx0 : x = [] := List.length_eq_zero.mp (Nat.le_zero.mp hx)
    subst hx0
    simp [parseStringBody] at h
  | succ n ih =>
    intro x hx v r h
    cases x with
    | nil => simp [parseStringBody] at h
    | cons c rest =>
      simp only [List.length_cons] at hx ⊢
      rw [parseStringBody_cons] at h
      split_ifs at h with h34 h92 h32
      · simp only [Option.some.injEq, Prod.mk.injEq] at h
        rw [← h.2]
        omega
      · split at h
        · exact absurd h (by simp)
        · rename_i e rest1
          simp only [List.length_cons] at hx ⊢
          split_ifs at h with h117
          · split at h
            · rename_i a b c2 d rest2
              simp only [List.length_cons] at hx ⊢
              split at h
              · obtain ⟨v1, hv1⟩ := consUnit_eq_some _ _ _ _ h
                have := ih rest2 (by omega) v1 r hv1
                omega
              · exact absurd h (by simp)
            · exact absurd h (by simp)
          · split at h
            · obtain ⟨v1, hv1⟩ := consUnit_eq_some _ _ _ _ h
              have := ih rest1 (by omega) v1 r hv1
              omega
            · exact absurd h (by simp)
      · obtain ⟨v1, hv1⟩ := consUnit_eq_some _ _ _ _ h
        have := ih rest (by omega) v1 r hv1
        omega

theorem parseStringBody_shrinks : Shrinks parseStringBody :=
  fun x v r h => parseStringBody_shrinks_aux x.length x (Nat.le_refl _) v r h

theorem takeDigits_length_le (s : JSString) : (takeDigits s).2.length ≤ s.length := by
  induction s with
  | nil => simp [takeDigits]
  | cons c rest ih =>
    rw [takeDigits]
    split
    · simp only [List.length_cons]; omega
    · exact Nat.le_refl _

theorem parseIntPart_shrinks : Shrinks parseIntPart := by
  intro x v r h
  cases x with
  | nil => simp [parseIntPart] at h
  | cons c rest =>
    rw [parseIntPart] at h
    split_ifs at h with h48 hd
    · simp only [Option.some.injEq, Prod.mk.injEq] at h
      rw [← h.2]
      simp
    · simp only [Option.some.injEq] at h
      have hr : r = (takeDigits (c :: rest)).2 := by rw [h]
      rw [takeDigits, if_pos hd] at hr
      have := takeDigits_length_le rest
      rw [hr]
      simp only [List.length_cons]
      omega

theorem parseFraction_length_le (x : JSString) (v : List Nat) (r : JSString)
    (h : parseFraction x = some (v, r)) : r.length ≤ x.length := by
  cases x with
  | nil =>
    simp only [parseFraction, Option.some.injEq, Prod.mk.injEq] at h
    rw [← h.2]
  | cons c rest =>
    rw [parseFraction] at h
    split_ifs at h with h46
    · have hl := takeDigits_length_le rest
      split at h
      · exact absurd h (by simp)
      · rename_i ds rest1 _ heq
        simp only [Option.some.injEq, Prod.mk.injEq] at h
        rw [heq] at hl
        rw [← h.2]
        simp only [List.length_cons] at hl ⊢
        omega
    · simp only [Option.some.injEq, Prod.mk.injEq] at h
      rw [← h.2]

theorem parseExpDigits_length_le (negative : Bool) (x : JSString) (v : Int) (r : JSString)
    (h : parseExpDigits negative x = some (v, r)) : r.length ≤ x.length := by
  have hl := takeDigits_length_le x
  rw [parseExpDigits] at h
  split at h
  · exact absurd h (by simp)
  · rename_i ds rest _ heq
    simp only [Option.some.injEq, Prod.mk.injEq] at h
    rw [heq] at hl
    rw [← h.2]
    exact hl

theorem parseExponent_length_le (x : JSString) (v : Int) (r : JSString)
    (h : parseExponent x = some (v, r)) : r.length ≤ x.length := by
  cases x with
  | nil =>
    simp only [parseExponent, Option.some.injEq, Prod.mk.injEq] at h
    rw [← h.2]
  | cons c rest =>
    unfold parseExponent at h
    simp only [] at h
    split_ifs at h with he
    · split at h
      · exact absurd h (by simp)
      · rename_i sgn rest1
        simp only [List.length_cons]
        split_ifs at h with h43 h45
        · have := parseExpDigits_length_le _ _ _ _ h
          omega
        · have := parseExpDigits_length_le _ _ _ _ h
          omega
        · have := parseExpDigits_length_le _ _ _ _ h
          simp only [List.length_cons] at this
          omega
    · simp only [Option.some.injEq, Prod.mk.injEq] at h
      rw [← h.2]

theorem parseUnsigned_shrinks (negative : Bool) : Shrinks (parseUnsigned negative) := by
  intro x v r h
  rw [parseUnsigned] at h
  split at h
  · exact absurd h (by simp)
  · rename_i ds rest hi
    split at h
    · exact absurd h (by simp)
    · rename_i fs rest1 hf
      split at h
      · exact absurd h (by simp)
      · rename_i e rest2 he
        simp only [Option.some.injEq, Prod.mk.injEq] at h
        have h1 := parseIntPart_shrinks _ _ _ hi
        have h2 := parseFraction_length_le _ _ _ hf
        have h3 := parseExponent_length_le _ _ _ he
        rw [← h.2]
        omega

theorem parseNumber_shrinks : Shrinks parseNumber := by
  intro x v r h
  cases x with
  | nil => simp [parseNumber] at h
  | cons c rest =>
    rw [parseNumber] at h
    split_ifs at h with h45
    · have := parseUnsigned_shrinks true _ _ _ h
      simp only [List.length_cons]
      omega
    · exact parseUnsigned_shrinks false _ _ _ h

theorem parseKeyword_shrinks (word : JSString) (v : JSON) (hw : 0 < word.length) :
    Shrinks (parseKeyword word v) := by
  intro x v1 r h
  rw [parseKeyword] at h
  split_ifs at h with ht
  simp only [Option.some.injEq, Prod.mk.injEq] at h
  rw [← h.2, List.length_drop]
  have hx : word.length ≤ x.length := by
    have := congrArg List.length ht
    rw [List.length_take] at this
    omega
  omega

theorem skipWs_cons_length (s : JSString) (c : Nat) (rest : JSString)
    (h : skipWs s = c :: rest) : rest.length < s.length := by
  have := skipWs_length_le s
  rw [h] at this
  simp only [List.length_cons] at this
  omega

theorem parseMembers_succ (pv : JSString → Option (JSON × JSString)) (fuel : Nat)
    (s : JSString) :
    parseMembers pv (fuel + 1) s =
      match skipWs s with
      | [] => none
      | q :: rest =>
        if q = 34 then
          match parseStringBody rest with
          | none => none
          | some (key, rest1) =>
            match skipWs rest1 with
            | [] => none
            | colon :: rest2 =>
              if colon = 58 then
                match pv rest2 with
                | none => none
                | some (v, rest3) =>
                  match skipWs rest3 with
                  | [] => none
                  | c :: rest4 =>
                    if c = 44 then
                      match parseMembers pv fuel rest4 with
                      | none => none
                      | some (ms, rest5) => some ((key, v) :: ms, rest5)
                    else if c = 125 then some ([(key, v)], rest4)
                    else none
              else none
        else none := rfl

theorem parseElems_shrinks (pv : JSString → Option (JSON × JSString)) (hpv : Shrinks pv)
    (k : Nat) : Shrinks (parseElems pv k) := by
  induction k with
  | zero =>
    intro x v r h
    simp [parseElems] at h
  | succ k ih =>
    intro x v r h
    rw [parseElems_succ] at h
    split at h
    · exact absurd h (by simp)
    · rename_i v1 rest hp
      have h1 := hpv _ _ _ hp
      split at h
      · exact absurd h (by simp)
      · rename_i c rest1 hsk
        have h2 := skipWs_cons_length _ _ _ hsk
        split_ifs at h with h44 h93
        · split at h
          · exact absurd h (by simp)
          · rename_i vs rest2 hrec
            simp only [Option.some.injEq, Prod.mk.injEq] at h
            have h3 := ih _ _ _ hrec
            rw [← h.2]
            omega
        · simp only [Option.some.injEq, Prod.mk.injEq] at h
          rw [← h.2]
          omega

theorem parseMembers_shrinks (pv : JSString → Option (JSON × JSString)) (hpv : Shrinks pv)
    (k : Nat) : Shrinks (parseMembers pv k) := by
  induction k with
  | zero =>
    intro x v r h
    simp [parseMembers] at h
  | succ k ih =>
    intro x v r h
    rw [parseMembers_succ] at h
    split at h
    · exact absurd h (by simp)
    · rename_i q rest hsk0
      have h0 := skipWs_cons_length _ _ _ hsk0
      split_ifs at h with h34
      split at h
      · exact absurd h (by simp)
      · rename_i key rest1 hkey
        have h1 := parseStringBody_shrinks _ _ _ hkey
        split at h
        · exact absurd h (by simp)
        · rename_i colon rest2 hsk1
          have h2 := skipWs_cons_length _ _ _ hsk1
          split_ifs at h with h58
          split at h
          · exact absurd h (by simp)
          · rename_i v1 rest3 hp
            have h3 := hpv _ _ _ hp
            split at h
            · exact absurd h (by simp)
            · rename_i c rest4 hsk2
              have h4 := skipWs_cons_length _ _ _ hsk2
              split_ifs at h with h44 h125
              · split at h
                · exact absurd h (by simp)
                · rename_i ms rest5 hrec
                  simp only [Option.some.injEq, Prod.mk.injEq] at h
                  have h5 := ih _ _ _ hrec
                  rw [← h.2]
                  omega
              · simp only [Option.some.injEq, Prod.mk.injEq] at h
                rw [← h.2]
                omega

theorem parseValue_succ (fuel : Nat) (s : JSString) :
    parseValue (fuel + 1) s =
      match skipWs s with
      | [] => none
      | c :: rest =>
        if c = 123 then
          match skipWs rest with
          | [] => none
          | d :: rest1 =>
            if d = 125 then some (JSON.obj [], rest1)
            else
              match parseMembers (parseValue fuel) s.length (d :: rest1) with
              | none => none
              | some (ms, rest2) => some (JSON.obj ms, rest2)
        else if c = 91 then
          match skipWs rest with
          | [] => none
          | d :: rest1 =>
            if d = 93 then some (JSON.arr [], rest1)
            else
              match parseElems (parseValue fuel) s.length (d :: rest1) with
              | none => none
              | some (vs, rest2) => some (JSON.arr vs, rest2)
        else if c = 34 then
          match parseStringBody rest with
          | none => none
          | some (str, rest1) => some (JSON.str str, rest1)
        else if c = 116 then parseKeyword [116, 114, 117, 101] (JSON.bool true) (c :: rest)
        else if c = 102 then parseKeyword [102, 97, 108, 115, 101] (JSON.bool false) (c :: rest)
        else if c = 110 then parseKeyword [110, 117, 108, 108] JSON.null (c :: rest)
        else parseNumber (c :: rest) := rfl

/-- The value parser consumes at least one code unit when it succeeds. -/
theorem parseValue_shrinks (n : Nat) : Shrinks (parseValue n) := by
  induction n with
  | zero =>
    intro x v r h
    simp [parseValue] at h
  | succ n ih =>
    intro x v r h
    rw [parseValue_succ] at h
    split at h
    · exact absurd h (by simp)
    · rename_i c rest hsk
      have h0 := skipWs_cons_length _ _ _ hsk
      have hle := skipWs_length_le x
      rw [hsk] at hle
      split_ifs at h with h123 h91 h34 h116 h102 h110
      · split at h
        · exact absurd h (by simp)
        · rename_i d rest1 hsk1
          have h1 := skipWs_cons_length _ _ _ hsk1
          have hle1 := skipWs_length_le rest
          rw [hsk1] at hle1
          split_ifs at h with h125
          · simp only [Option.some.injEq, Prod.mk.injEq] at h
            rw [← h.2]
            omega
          · split at h
            · exact absurd h (by simp)
            · rename_i ms rest2 hrec
              simp only [Option.some.injEq, Prod.mk.injEq] at h
              have h2 := parseMembers_shrinks _ ih _ _ _ _ hrec
              rw [← h.2]
              omega
      · split at h
        · exact absurd h (by simp)
        · rename_i d rest1 hsk1
          have h1 := skipWs_cons_length _ _ _ hsk1
          have hle1 := skipWs_length_le rest
          rw [hsk1] at hle1
          split_ifs at h with h93
          · simp only [Option.some.injEq, Prod.mk.injEq] at h
            rw [← h.2]
            omega
          · split at h
            · exact absurd h (by simp)
            · rename_i vs rest2 hrec
              simp only [Option.some.injEq, Prod.mk.injEq] at h
              have h2 := parseElems_shrinks _ ih _ _ _ _ hrec
              rw [← h.2]
              omega
      · split at h
        · exact absurd h (by simp)
        · rename_i str rest1 hstr
          simp only [Option.some.injEq, Prod.mk.injEq] at h
          have h1 := parseStringBody_shrinks _ _ _ hstr
          rw [← h.2]
          omega
      · have := parseKeyword_shrinks _ _ (by decide) _ _ _ h
        omega
      · have := parseKeyword_shrinks _ _ (by decide) _ _ _ h
        omega
      · have := parseKeyword_shrinks _ _ (by decide) _ _ _ h
        omega
      · have := parseNumber_shrinks _ _ _ h
        omega

theorem parseElems_fuel (pv1 pv2 : JSString → Option (JSON × JSString)) (h1 : Shrinks pv1) :
    ∀ (k1 k2 : Nat) (s : JSString), (∀ x : JSString, x.length ≤ s.length → pv1 x = pv2 x) →
      s.length < k1 → s.length < k2 → parseElems pv1 k1 s = parseElems pv2 k2 s := by
  intro k1
  induction k1 with
  | zero => intro k2 s _ hk1 _; omega
  | succ k1 ih =>
    intro k2 s hagree hk1 hk2
    cases k2 with
    | zero => omega
    | succ k2 =>
      rw [parseElems_succ, parseElems_succ, ← hagree s (Nat.le_refl _)]
      cases hp : pv1 s with
      | none => rfl
      | some p =>
        obtain ⟨v, rest⟩ := p
        have hr := h1 _ _ _ hp
        simp only []
        cases hsk : skipWs rest with
        | nil => rfl
        | cons c rest1 =>
          have hr1 := skipWs_cons_length _ _ _ hsk
          simp only []
          have hrec := ih k2 rest1 (fun x hx => hagree x (by omega)) (by omega) (by omega)
          rw [hrec]

theorem parseMembers_fuel (pv1 pv2 : JSString → Option (JSON × JSString))
    (h1 : Shrinks pv1) :
    ∀ (k1 k2 : Nat) (s : JSString), (∀ x : JSString, x.length ≤ s.length → pv1 x = pv2 x) →
      s.length < k1 → s.length < k2 → parseMembers pv1 k1 s = parseMembers pv2 k2 s := by
  intro k1
  induction k1 with
  | zero => intro k2 s _ hk1 _; omega
  | succ k1 ih =>
    intro k2 s hagree hk1 hk2
    cases k2 with
    | zero => omega
    | succ k2 =>
      rw [parseMembers_succ, parseMembers_succ]
      cases hsk0 : skipWs s with
      | nil => rfl
      | cons q rest =>
        have h0 := skipWs_cons_length _ _ _ hsk0
        simp only []
        cases hkey : parseStringBody rest with
        | none => rfl
        | some p =>
          obtain ⟨key, rest1⟩ := p
          have hk := parseStringBody_shrinks _ _ _ hkey
          simp only []
          cases hsk1 : skipWs rest1 with
          | nil => rfl
          | cons colon rest2 =>
            have h2 := skipWs_cons_length _ _ _ hsk1
            simp only []
            rw [← hagree rest2 (by omega)]
            cases hp : pv1 rest2 with
            | none => rfl
            | some p2 =>
              obtain ⟨v, rest3⟩ := p2
              have h3 := h1 _ _ _ hp
              simp only []
              cases hsk2 : skipWs rest3 with
              | nil => rfl
              | cons c rest4 =>
                have h4 := skipWs_cons_length _ _ _ hsk2
                simp only []
                have hrec := ih k2 rest4 (fun x hx => hagree x (by omega)) (by omega)
                  (by omega)
                rw [hrec]

theorem parseValue_fuel :
    ∀ (n m : Nat) (s : JSString), s.length < n → s.length < m →
      parseValue n s = parseValue m s := by
  intro n
  induction n with
  | zero => intro m s hn _; omega
  | succ n ih =>
    intro m s hn hm
    cases m with
    | zero => omega
    | succ m =>
      rw [parseValue_succ, parseValue_succ]
      cases hsk : skipWs s with
      | nil => rfl
      | cons c rest =>
        have h0 := skipWs_cons_length _ _ _ hsk
        simp only []
        cases hsk1 : skipWs rest with
        | nil => rfl
        | cons d rest1 =>
          have h1 := skipWs_cons_length _ _ _ hsk1
          have hagree : ∀ x : JSString, x.length ≤ (d :: rest1).length →
              parseValue n x = parseValue m x := by
            intro x hx
            simp only [List.length_cons] at hx
            exact ih m x (by omega) (by omega)
          have hlen : (d :: rest1).length < s.length := by
            simp only [List.length_cons]; omega
          have hM := parseMembers_fuel (parseValue n) (parseValue m) (parseValue_shrinks n)
            s.length s.length (d :: rest1) hagree hlen hlen
          have hE := parseElems_fuel (parseValue n) (parseValue m) (parseValue_shrinks n)
            s.length s.length (d :: rest1) hagree hlen hlen
          simp only []
          rw [hM, hE]

/-- The result of the value parser is the same for every fuel above the length of the
text: `jsonParse` never fails for want of fuel. -/
theorem parseValue_fuel_irrelevant (text : JSString) (n : Nat) (h : text.length < n) :
    parseValue n text = parseValue (text.length + 1) text :=
  parseValue_fuel n (text.length + 1) text h (Nat.lt_succ_self _)

/-! ## The handler `updateTodo` -/

theorem updateTodo_of_editing (st : State) (target : Int)
    (h : st.editingTodoId = some target) :
    updateTodo st = Except.ok
      { st with
        todos := st.todos.map fun todo =>
          if todo.id = target then { todo with text := st.todoEditInput } else todo
        editingTodoId := none
        todoEditInput := []
        storage := some (stringify (st.todos.map fun todo =>
          if todo.id = target then { todo with text := st.todoEditInput } else todo)) } := by
  simp [updateTodo, todoEditInputRef, h]

theorem updateTodo_of_not_editing (st : State) (h : st.editingTodoId = none) :
    updateTodo st = Except.error JSError.typeError := by
  simp [updateTodo, todoEditInputRef, h]

theorem step_update_of_editing (st : State) (newText : JSString) (target : Int)
    (h : st.editingTodoId = some target) :
    step st (Op.update newText) =
      { st with
        todos := st.todos.map fun todo =>
          if todo.id = target then { todo with text := newText } else todo
        editingTodoId := none
        todoEditInput := []
        storage := some (stringify (st.todos.map fun todo =>
          if todo.id = target then { todo with text := newText } else todo)) } := by
  have h1 : (typeTodoEditInput newText st).editingTodoId = some target := h
  simp only [step]
  rw [updateTodo_of_editing _ target h1]
  rfl

theorem step_update_of_not_editing (st : State) (newText : JSString)
    (h : st.editingTodoId = none) : step st (Op.update newText) = st := by
  have h1 : (typeTodoEditInput newText st).editingTodoId = none := h
  simp only [step]
  rw [updateTodo_of_not_editing _ h1]

theorem map_update_target_of_not_mem (id : Int) (newText : JSString) (l : List Todo)
    (h : ∀ t ∈ l, t.id ≠ id) :
    l.map (fun todo => if todo.id = id then { todo with text := newText } else todo) = l := by
  induction l with
  | nil => rfl
  | cons t ts ih =>
    have h1 : t.id ≠ id := h t (List.mem_cons_self _ _)
    have h2 : ∀ u ∈ ts, u.id ≠ id := fun u hu => h u (List.mem_cons_of_mem _ hu)
    simp [h1, ih h2]

/-! ## The ids of the list -/

theorem map_id_toggle (id : Int) (l : List Todo) :
    (l.map fun todo => if todo.id = id then { todo with complete := !todo.complete }
      else todo).map Todo.id = l.map Todo.id := by
  induction l with
  | nil => rfl
  | cons t ts ih =>
    simp only [List.map_cons, ih]
    by_cases h : t.id = id
    · simp [h]
    · simp [h]

theorem map_id_update (target : Int) (newText : JSString) (l : List Todo) :
    (l.map fun todo => if todo.id = target then { todo with text := newText }
      else todo).map Todo.id = l.map Todo.id := by
  induction l with
  | nil => rfl
  | cons t ts ih =>
    simp only [List.map_cons, ih]
    by_cases h : t.id = target
    · simp [h]
    · simp [h]

/-- The ids stay pairwise distinct under every action whose clock reading, if it is an
add, is not already an id of the list. -/
theorem step_ids_nodup (st : State) (op : Op) (h : (st.todos.map Todo.id).Nodup)
    (hfresh : ∀ rawText now, op = Op.add rawText now → now ∉ st.todos.map Todo.id) :
    ((step st op).todos.map Todo.id).Nodup := by
  cases op with
  | add rawText now =>
    by_cases ht : trim (typeTodoInput rawText st).todoInput = []
    · simp only [step]
      rw [addTodo_of_blank now _ ht]
      exact h
    · simp only [step]
      rw [addTodo_of_nonblank now _ ht]
      simp only [typeTodoInput, List.map_append, List.map_cons, List.map_nil]
      rw [List.nodup_append]
      refine ⟨h, List.nodup_singleton _, ?_⟩
      intro a ha hb
      rw [List.mem_singleton] at hb
      subst hb
      exact hfresh rawText a rfl ha
  | toggle id =>
    simp only [step, toggleComplete]
    rw [map_id_toggle]
    exact h
  | delete id =>
    simp only [step, deleteTodo]
    exact h.sublist ((List.filter_sublist _).map _)
  | beginEdit id value => exact h
  | update newText =>
    cases he : st.editingTodoId with
    | none =>
      rw [step_update_of_not_editing st newText he]
      exact h
    | some target =>
      rw [step_update_of_editing st newText target he]
      simp only []
      rw [map_id_update]
      exact h
  | cancel => exact h

/-! ## Sequences of actions and the stored snapshot -/

theorem step_storage_of_writes (st : State) (op : Op) (h : Op.writes st op = true) :
    (step st op).storage = some (stringify (step st op).todos) := by
  cases op with
  | add rawText now =>
    have ht : trim (typeTodoInput rawText st).todoInput ≠ [] := by
      simpa [Op.writes, typeTodoInput] using h
    simp only [step]
    rw [addTodo_of_nonblank now (typeTodoInput rawText st) ht]
  | toggle id => rfl
  | delete id => rfl
  | beginEdit id value => simp [Op.writes] at h
  | update newText =>
    cases he : st.editingTodoId with
    | none => simp [Op.writes, he] at h
    | some target => rw [step_update_of_editing st newText target he]
  | cancel => simp [Op.writes] at h

theorem step_of_not_writes (st : State) (op : Op) (h : Op.writes st op = false) :
    (step st op).todos = st.todos ∧ (step st op).storage = st.storage := by
  cases op with
  | add rawText now =>
    have ht : trim (typeTodoInput rawText st).todoInput = [] := by
      simpa [Op.writes, typeTodoInput] using h
    simp only [step]
    rw [addTodo_of_blank now (typeTodoInput rawText st) ht]
    exact ⟨rfl, rfl⟩
  | toggle id => simp [Op.writes] at h
  | delete id => simp [Op.writes] at h
  | beginEdit id value => exact ⟨rfl, rfl⟩
  | update newText =>
    have he : st.editingTodoId = none := by
      simpa [Op.writes] using h
    rw [step_update_of_not_editing st newText he]
    exact ⟨rfl, rfl⟩
  | cancel => exact ⟨rfl, rfl⟩

theorem run_of_noWrites (st : State) (ops : List Op) (h : noWrites st ops = true) :
    (run st ops).todos = st.todos ∧ (run st ops).storage = st.storage := by
  induction ops generalizing st with
  | nil => exact ⟨rfl, rfl⟩
  | cons op rest ih =>
    simp only [noWrites, Bool.and_eq_true, Bool.not_eq_true'] at h
    have h1 := step_of_not_writes st op h.1
    have h2 := ih (step st op) h.2
    simp only [run, List.foldl_cons] at h2 ⊢
    exact ⟨h2.1.trans h1.1, h2.2.trans h1.2⟩

theorem run_append (st : State) (ops1 ops2 : List Op) :
    run st (ops1 ++ ops2) = run (run st ops1) ops2 := by
  simp [run, List.foldl_append]

theorem run_snoc (st : State) (ops : List Op) (op : Op) :
    run st (ops ++ [op]) = step (run st ops) op := by
  simp [run, List.foldl_append]

/-! ## The claims on the handlers -/

/-- C1, as stated, fails: with ` a` typed into the add input, the trimmed form `a` is
not empty, and the item that `addTodo` appends holds ` a`, which differs from `a`. -/
theorem addTodo_stores_untrimmed_text :
    trim [32, 97] = [97] ∧
    (addTodo 1700000000000 (typeTodoInput [32, 97] (initialState none))).todos =
      [{ id := 1700000000000, complete := false, text := [32, 97] }] ∧
    ([32, 97] : JSString) ≠ trim [32, 97] := by
  decide

/-- C1, amended: for every state and every `rawText` whose trimmed form is not empty,
`addTodo` appends one item whose text is `rawText` itself, untrimmed; the stored text
is not empty after trimming. -/
theorem addTodo_stores_raw_text (st : State) (rawText : JSString) (now : Int)
    (h : trim rawText ≠ []) :
    ∃ item : Todo,
      (addTodo now (typeTodoInput rawText st)).todos = st.todos ++ [item] ∧
      item.text = rawText ∧ trim item.text ≠ [] := by
  refine ⟨{ id := now, complete := false, text := rawText }, ?_, rfl, h⟩
  rw [addTodo_of_nonblank now (typeTodoInput rawText st) h]
  rfl

/-- An instance: a space and `a` typed into the add input of a fresh component. -/
theorem addTodo_stores_raw_text_witness :
    trim [32, 97] ≠ [] ∧
    ∃ item : Todo,
      (addTodo 5 (typeTodoInput [32, 97] (initialState none))).todos =
        (initialState none).todos ++ [item] ∧
      item.text = [32, 97] ∧ trim item.text ≠ [] :=
  ⟨by decide, addTodo_stores_raw_text (initialState none) [32, 97] 5 (by decide)⟩

/-- C2: for every state and every text that is empty or made of white space only,
`addTodo` returns the state it was given: the list and the stored value are the same
as before the call. -/
theorem addTodo_blank_is_noop (st : State) (rawText : JSString) (now : Int)
    (h : ∀ c ∈ rawText, isWhiteSpace c = true) :
    (addTodo now (typeTodoInput rawText st)).todos = st.todos ∧
    (addTodo now (typeTodoInput rawText st)).storage = st.storage ∧
    addTodo now (typeTodoInput rawText st) = typeTodoInput rawText st := by
  have h1 : addTodo now (typeTodoInput rawText st) = typeTodoInput rawText st :=
    addTodo_of_blank now (typeTodoInput rawText st) (trim_eq_nil_of_all_whiteSpace rawText h)
  rw [h1]
  exact ⟨rfl, rfl, rfl⟩

/-- An instance: three spaces typed into the add input, the slot holding `[]`. -/
theorem addTodo_blank_is_noop_witness :
    (∀ c ∈ ([32, 32, 32] : JSString), isWhiteSpace c = true) ∧
    (addTodo 5 (typeTodoInput [32, 32, 32] (initialState (some [91, 93])))).todos =
      (initialState (some [91, 93])).todos ∧
    (addTodo 5 (typeTodoInput [32, 32, 32] (initialState (some [91, 93])))).storage =
      (initialState (some [91, 93])).storage ∧
    addTodo 5 (typeTodoInput [32, 32, 32] (initialState (some [91, 93]))) =
      typeTodoInput [32, 32, 32] (initialState (some [91, 93])) :=
  ⟨by decide, addTodo_blank_is_noop (initialState (some [91, 93])) [32, 32, 32] 5 (by decide)⟩

/-- C3: for every state with list `L` and every text whose trimmed form is not empty,
the list after `addTodo` has length `|L| + 1`, its first `|L|` items are `L` in order,
and its last item is new with `complete = false`. -/
theorem addTodo_appends_exactly_one (st : State) (rawText : JSString) (now : Int)
    (h : trim rawText ≠ []) :
    (addTodo now (typeTodoInput rawText st)).todos.length = st.todos.length + 1 ∧
    (addTodo now (typeTodoInput rawText st)).todos.take st.todos.length = st.todos ∧
    ∃ item : Todo,
      (addTodo now (typeTodoInput rawText st)).todos.getLast? = some item ∧
      item.complete = false ∧
      (addTodo now (typeTodoInput rawText st)).todos = st.todos ++ [item] := by
  rw [addTodo_of_nonblank now (typeTodoInput rawText st) h]
  refine ⟨?_, ?_, { id := now, complete := false, text := rawText }, ?_, rfl, rfl⟩
  · simp [typeTodoInput]
  · simp [typeTodoInput]
  · simp [typeTodoInput]

/-- An instance: `buy milk` typed into the add input of a fresh component. -/
theorem addTodo_appends_exactly_one_witness :
    trim [98, 117, 121, 32, 109, 105, 108, 107] ≠ [] ∧
    (addTodo 5 (typeTodoInput [98, 117, 121, 32, 109, 105, 108, 107]
      (initialState none))).todos.length = (initialState none).todos.length + 1 ∧
    (addTodo 5 (typeTodoInput [98, 117, 121, 32, 109, 105, 108, 107]
      (initialState none))).todos.take (initialState none).todos.length
        = (initialState none).todos ∧
    ∃ item : Todo,
      (addTodo 5 (typeTodoInput [98, 117, 121, 32, 109, 105, 108, 107]
        (initialState none))).todos.getLast? = some item ∧
      item.complete = false ∧
      (addTodo 5 (typeTodoInput [98, 117, 121, 32, 109, 105, 108, 107]
        (initialState none))).todos = (initialState none).todos ++ [item] :=
  ⟨by decide, addTodo_appends_exactly_one (initialState none)
    [98, 117, 121, 32, 109, 105, 108, 107] 5 (by decide)⟩

/-- C4: for every state and every id, `toggleComplete` applied twice gives back the
original list, item by item. -/
theorem toggleComplete_involution (st : State) (id : Int) :
    (toggleComplete id (toggleComplete id st)).todos = st.todos := by
  simp only [toggleComplete, List.map_map]
  conv_rhs => rw [← List.map_id st.todos]
  apply List.map_congr_left
  intro t _
  exact toggle_toggle_item id t

/-- C5: for every state and every id, after `deleteTodo` no item has that id, and a
second `deleteTodo` with the same id returns the state produced by the first. -/
theorem deleteTodo_idempotent (st : State) (id : Int) :
    (∀ t ∈ (deleteTodo id st).todos, t.id ≠ id) ∧
    deleteTodo id (deleteTodo id st) = deleteTodo id st := by
  constructor
  · intro t ht
    simp only [deleteTodo, List.mem_filter] at ht
    simpa using ht.2
  · simp only [deleteTodo, List.filter_filter, Bool.and_self]

/-- C6: for every state, id and new text, `editTodo` followed by `updateTodo` returns
without an error, keeps the length and order of the list, gives the text `newText` to
each item whose id is `id`, keeps every id and every `complete`, leaves each item with
another id as it was, and ends with `editingTodoId = null`. -/
theorem editTodo_updateTodo_frame (st : State) (id : Int) (value newText : JSString) :
    ∃ st1 : State,
      updateTodo (typeTodoEditInput newText (editTodo id value st)) = Except.ok st1 ∧
      st1.todos.length = st.todos.length ∧
      (∀ (i : Nat) (t : Todo), st.todos[i]? = some t →
        ∃ t1 : Todo,
          st1.todos[i]? = some t1 ∧
          t1.id = t.id ∧ t1.complete = t.complete ∧
          (t.id = id → t1.text = newText) ∧ (t.id ≠ id → t1 = t)) ∧
      st1.editingTodoId = none := by
  have he : (typeTodoEditInput newText (editTodo id value st)).editingTodoId = some id := rfl
  refine ⟨_, updateTodo_of_editing _ id he, ?_, ?_, rfl⟩
  · simp [typeTodoEditInput, editTodo]
  · intro i t hi
    by_cases h : t.id = id
    · refine ⟨{ t with text := newText }, ?_, rfl, rfl, fun _ => rfl, fun h1 => absurd h h1⟩
      simp [typeTodoEditInput, editTodo, hi, h]
    · refine ⟨t, ?_, rfl, rfl, fun h1 => absurd h1 h, fun _ => rfl⟩
      simp [typeTodoEditInput, editTodo, hi, h]

/-- C9, evaluated on the code: two `addTodo` calls that read the same clock value
produce two items with the same id. -/
theorem addTodo_same_clock_reading_repeats_id :
    (run (initialState none)
      [Op.add [97] 1700000000000, Op.add [98] 1700000000000]).todos =
      [{ id := 1700000000000, complete := false, text := [97] },
       { id := 1700000000000, complete := false, text := [98] }] ∧
    ¬ ((run (initialState none)
      [Op.add [97] 1700000000000, Op.add [98] 1700000000000]).todos.map Todo.id).Nodup := by
  decide

/-- C10, as stated, fails at the null target: in a component that is not editing, with
an empty list that matches no id, `updateTodo` throws a TypeError at line 93 and returns
no list; the slot stays absent. -/
theorem updateTodo_null_target_throws :
    (typeTodoEditInput [98] (initialState none)).editingTodoId = none ∧
    updateTodo (typeTodoEditInput [98] (initialState none))
      = Except.error JSError.typeError ∧
    (step (initialState none) (Op.update [98])).storage = none := by
  exact ⟨rfl, rfl, rfl⟩

/-- C10, amended: for every state and every id that no item of the list has,
`toggleComplete`, `deleteTodo` and `updateTodo` with that id as the edit target each
return, without an error, the list they were given; `updateTodo` with `null` as the edit
target returns no list and throws a TypeError. -/
theorem unknown_id_leaves_list (st : State) (id : Int) (newText : JSString)
    (h : ∀ t ∈ st.todos, t.id ≠ id) :
    (toggleComplete id st).todos = st.todos ∧
    (deleteTodo id st).todos = st.todos ∧
    (∃ st1 : State,
      updateTodo (typeTodoEditInput newText { st with editingTodoId := some id })
        = Except.ok st1 ∧
      st1.todos = st.todos) ∧
    updateTodo (typeTodoEditInput newText { st with editingTodoId := none })
      = Except.error JSError.typeError := by
  refine ⟨?_, ?_, ?_, ?_⟩
  · exact map_toggle_of_not_mem id st.todos h
  · exact filter_ne_id_of_not_mem id st.todos h
  · refine ⟨_, updateTodo_of_editing _ id rfl, ?_⟩
    exact map_update_target_of_not_mem id newText st.todos h
  · exact updateTodo_of_not_editing _ rfl

/-- An instance: a list with the single id 7, and the unknown id 8. -/
theorem unknown_id_leaves_list_witness :
    (∀ t ∈ (toggleComplete 7 (addTodo 7 (typeTodoInput [97] (initialState none)))).todos,
      t.id ≠ 8) ∧
    ((toggleComplete 8
      (toggleComplete 7 (addTodo 7 (typeTodoInput [97] (initialState none))))).todos =
      (toggleComplete 7 (addTodo 7 (typeTodoInput [97] (initialState none)))).todos ∧
    (deleteTodo 8
      (toggleComplete 7 (addTodo 7 (typeTodoInput [97] (initialState none))))).todos =
      (toggleComplete 7 (addTodo 7 (typeTodoInput [97] (initialState none)))).todos ∧
    (∃ st1 : State,
      updateTodo (typeTodoEditInput [98]
        { toggleComplete 7 (addTodo 7 (typeTodoInput [97] (initialState none))) with
          editingTodoId := some 8 }) = Except.ok st1 ∧
      st1.todos =
        (toggleComplete 7 (addTodo 7 (typeTodoInput [97] (initialState none)))).todos) ∧
    updateTodo (typeTodoEditInput [98]
      { toggleComplete 7 (addTodo 7 (typeTodoInput [97] (initialState none))) with
        editingTodoId := none }) = Except.error JSError.typeError) :=
  ⟨by decide, unknown_id_leaves_list
    (toggleComplete 7 (addTodo 7 (typeTodoInput [97] (initialState none)))) 8 [98]
    (by decide)⟩

/-- C7: in every run of actions, right after an action that writes (an add of
non-blank text, a toggle, a delete, or an update while an edit is active) the stored
snapshot is the serialisation of the list that action produced; and after any further
actions that do not write, `load` on the slot returns that list, which is still the list
in memory. -/
theorem persistence_round_trip (st : State) (before after : List Op) (w : Op)
    (hw : Op.writes (run st before) w = true)
    (hafter : noWrites (run st (before ++ [w])) after = true) :
    (run st (before ++ [w])).storage = some (stringify (run st (before ++ [w])).todos) ∧
    load (run st (before ++ [w])).storage = LoadResult.ok (run st (before ++ [w])).todos ∧
    load (run st (before ++ w :: after)).storage
      = LoadResult.ok (run st (before ++ [w])).todos ∧
    (run st (before ++ w :: after)).todos = (run st (before ++ [w])).todos := by
  have hs : (run st (before ++ [w])).storage
      = some (stringify (run st (before ++ [w])).todos) := by
    rw [run_snoc]
    exact step_storage_of_writes _ w hw
  have hsplit : run st (before ++ w :: after) = run (run st (before ++ [w])) after := by
    rw [← run_append, List.append_assoc]
    rfl
  have hkeep := run_of_noWrites (run st (before ++ [w])) after hafter
  refine ⟨hs, ?_, ?_, ?_⟩
  · rw [hs]
    exact load_stringify _
  · rw [hsplit, hkeep.2, hs]
    exact load_stringify _
  · rw [hsplit]
    exact hkeep.1

/-- An instance: an add and an edit that is updated, then an update with no edit active,
an edit that is cancelled and a blank add. -/
theorem persistence_round_trip_witness :
    Op.writes (run (initialState none) [Op.add [97] 7, Op.beginEdit 7 [97]])
      (Op.update [98]) = true ∧
    noWrites
      (run (initialState none) ([Op.add [97] 7, Op.beginEdit 7 [97]] ++ [Op.update [98]]))
      [Op.update [99], Op.beginEdit 7 [98], Op.cancel, Op.add [32] 9] = true ∧
    ((run (initialState none)
        ([Op.add [97] 7, Op.beginEdit 7 [97]] ++ [Op.update [98]])).storage =
      some (stringify (run (initialState none)
        ([Op.add [97] 7, Op.beginEdit 7 [97]] ++ [Op.update [98]])).todos) ∧
    load (run (initialState none)
        ([Op.add [97] 7, Op.beginEdit 7 [97]] ++ [Op.update [98]])).storage =
      LoadResult.ok (run (initialState none)
        ([Op.add [97] 7, Op.beginEdit 7 [97]] ++ [Op.update [98]])).todos ∧
    load (run (initialState none) ([Op.add [97] 7, Op.beginEdit 7 [97]] ++
        Op.update [98] ::
          [Op.update [99], Op.beginEdit 7 [98], Op.cancel, Op.add [32] 9])).storage =
      LoadResult.ok (run (initialState none)
        ([Op.add [97] 7, Op.beginEdit 7 [97]] ++ [Op.update [98]])).todos ∧
    (run (initialState none) ([Op.add [97] 7, Op.beginEdit 7 [97]] ++
        Op.update [98] ::
          [Op.update [99], Op.beginEdit 7 [98], Op.cancel, Op.add [32] 9])).todos =
      (run (initialState none)
        ([Op.add [97] 7, Op.beginEdit 7 [97]] ++ [Op.update [98]])).todos) :=
  ⟨by decide, by decide, persistence_round_trip (initialState none)
    [Op.add [97] 7, Op.beginEdit 7 [97]]
    [Op.update [99], Op.beginEdit 7 [98], Op.cancel, Op.add [32] 9] (Op.update [98])
    (by decide) (by decide)⟩

/-- C8, as stated, fails: with the one-character string of an opening brace in the slot,
`JSON.parse` throws, so the load effect throws and does not return the empty list. -/
theorem load_of_corrupt_slot_throws :
    jsonParse [123] = none ∧
    load (some [123]) = LoadResult.threw ∧
    (load (some [123]) = LoadResult.ok [] ↔ False) := by
  refine ⟨rfl, rfl, ?_⟩
  constructor
  · intro h
    have h1 : load (some [123]) = LoadResult.threw := rfl
    rw [h1] at h
    exact LoadResult.noConfusion h
  · exact False.elim

/-- C8, amended: `load` returns the empty list, with no error, when the slot is absent
or holds the empty string; on a non-empty string that `JSON.parse` rejects, the error
of `JSON.parse` is surfaced and no list is returned; a non-empty string that parses to
something other than a list of todo items is handed to `setTodos` as it is. -/
theorem load_by_slot_content (s : JSString) (hs : s ≠ []) :
    load none = LoadResult.ok [] ∧
    load (some []) = LoadResult.ok [] ∧
    (jsonParse s = none → load (some s) = LoadResult.threw) ∧
    (∀ v, jsonParse s = some v → decodeTodos v = none → load (some s) = LoadResult.foreign v) ∧
    (∀ v l, jsonParse s = some v → decodeTodos v = some l → load (some s) = LoadResult.ok l) := by
  refine ⟨rfl, rfl, ?_, ?_, ?_⟩
  · intro hp
    simp [load, hs, hp]
  · intro v hp hd
    simp [load, hs, hp, hd]
  · intro v l hp hd
    simp [load, hs, hp, hd]

/-- An instance: the slot holding the single character of an opening brace. -/
theorem load_by_slot_content_witness :
    ([123] : JSString) ≠ [] ∧
    (load none = LoadResult.ok [] ∧
    load (some []) = LoadResult.ok [] ∧
    (jsonParse [123] = none → load (some [123]) = LoadResult.threw) ∧
    (∀ v, jsonParse [123] = some v → decodeTodos v = none →
      load (some [123]) = LoadResult.foreign v) ∧
    (∀ v l, jsonParse [123] = some v → decodeTodos v = some l →
      load (some [123]) = LoadResult.ok l)) :=
  ⟨by decide, load_by_slot_content [123] (by decide)⟩

end TodoApp
